import Mathlib

/-!
# Verification of the smart-note persistence/sync core and inference wrapper

This file is a shallow embedding, in Lean 4, of the core logic of the
smart-note application:

* the retry-with-backoff wrapper and JSON cleaning of the external
  inference client (`src/index.tsx`, inference-client section, and
  `src/services/geminiService.ts` — `withRetry`, `safeJsonParse`,
  `analyzeImage` input normalization);
* the local IndexedDB-backed store (`src/services/db.ts` — `dbService`);
* the cloud remote-store adapter (`src/services/firebase.ts` —
  `firebaseService`).

JavaScript strings are embedded as `List Char` (`Str`); the JS string
operations used by the source (`startsWith`, `includes`, `split`,
`replace(/lit/g, '')`, `trim`, `.length`) are given as executable list
functions with the corresponding semantics.  Asynchronous effects are
embedded by explicit state passing: the outcome of an external call
(storage upload, HTTP fetch, each attempt of the inference call) is a
parameter of the embedded function, and a thrown JS exception is an
`Except` error.  Elapsed waiting time is threaded as an explicit
accumulator where a claim speaks about it.
-/

/-- A JavaScript string, embedded as its list of characters
(UTF-16 code units and code points coincide on all data relevant here,
so `.length` is `List.length`). -/
abbrev Str := List Char

/-- Character list of a Lean string literal (used to transcribe the JS
string literals of the source). -/
def chars (s : String) : Str := s.data

/-- A thrown JavaScript error value, as inspected by `withRetry`
(`src/index.tsx` inference-client section, lines 60–87): its `status`
field (absent on plain `Error`s), its `message`, and whether it is an
`instanceof SyntaxError`. -/
structure JsError where
  status : Option Nat
  message : Str
  isSyntaxInstance : Bool
deriving DecidableEq

/-- JS `String.prototype.includes(pat)`: whether `pat` occurs as a
contiguous substring. -/
def containsSub (pat : Str) : Str → Bool
  | [] => pat.isEmpty
  | s@(_ :: rest) => pat.isPrefixOf s || containsSub pat rest

/-- `withRetry`'s quota / rate-limit classification:
`error.status === 429 || (error.message && (error.message.includes('quota')
|| error.message.includes('429')))`.  (For a string, JS truthiness of
`error.message` only excludes the empty string, on which both `includes`
calls are false anyway, so the truthiness guard is semantically
redundant and drops out of the embedding.) -/
def isQuotaError (e : JsError) : Bool :=
  e.status == some 429 ||
    (containsSub (chars "quota") e.message || containsSub (chars "429") e.message)

/-- `withRetry`'s transient-parse classification:
`error instanceof SyntaxError || (error.message && error.message.includes('JSON'))`. -/
def isRetryableSyntaxError (e : JsError) : Bool :=
  e.isSyntaxInstance || containsSub (chars "JSON") e.message

/-- The loop of `withRetry` (`for (let i = 0; i < retries; i++) ...`).
`remaining` is `retries - i` (the number of attempts still allowed,
including the current one), so the source's retry condition
`i < retries - 1` is `remaining != 1`, i.e. `r != 0` under the pattern
`remaining = r + 1`.  The operation under retry is embedded as a map
from the attempt index to that attempt's outcome.  The second component
of the result is the cumulative time passed to `wait` (the backoff
delays actually awaited).  The `Option JsError` in the error result is
the source's `lastError` variable, `none` when no attempt ever ran. -/
def withRetryGo {α : Type} (op : Nat → Except JsError α) :
    Nat → Nat → Nat → Nat → Option JsError → Except (Option JsError) α × Nat
  | 0, _, _, waited, lastError => (Except.error lastError, waited)
  | r + 1, i, delay, waited, _ =>
    match op i with
    | Except.ok v => (Except.ok v, waited)
    | Except.error e =>
      if (isQuotaError e || isRetryableSyntaxError e) && r != 0 then
        withRetryGo op r (i + 1) (delay * 2) (waited + delay) (some e)
      else (Except.error (some e), waited)

/-- `withRetry(operation, retries = 3, initialDelay = 2000)`
(`src/index.tsx` inference-client section, lines 60–87; the copy in
`src/services/geminiService.ts` lines 37–64 is identical). -/
def withRetry {α : Type} (op : Nat → Except JsError α)
    (retries : Nat := 3) (initialDelay : Nat := 2000) :
    Except (Option JsError) α × Nat :=
  withRetryGo op retries 0 initialDelay 0 none

/-- C1: for `withRetry` at its fixed defaults (3 total attempts, 2000 ms
initial delay): (i) an operation failing twice with quota-classified
errors and succeeding on the third attempt returns the success value,
after a cumulative backoff of 2000 + 4000 = 6000 ms, which is at least
`initialDelay + initialDelay*2`; (ii) an operation whose first failure
is neither quota-classified nor parse-classified is not retried and that
error propagates with no waiting; (iii) when all 3 attempts fail with
retryable errors, the last error propagates. -/
theorem withRetry_retry_policy {α : Type} (op : Nat → Except JsError α) :
    (∀ (v : α) (e0 e1 : JsError),
        op 0 = Except.error e0 → isQuotaError e0 = true →
        op 1 = Except.error e1 → isQuotaError e1 = true →
        op 2 = Except.ok v →
        withRetry op = (Except.ok v, 6000) ∧ 2000 + 2000 * 2 ≤ 6000)
    ∧ (∀ e : JsError,
        op 0 = Except.error e →
        isQuotaError e = false → isRetryableSyntaxError e = false →
        withRetry op = (Except.error (some e), 0))
    ∧ (∀ e0 e1 e2 : JsError,
        op 0 = Except.error e0 → (isQuotaError e0 || isRetryableSyntaxError e0) = true →
        op 1 = Except.error e1 → (isQuotaError e1 || isRetryableSyntaxError e1) = true →
        op 2 = Except.error e2 →
        withRetry op = (Except.error (some e2), 6000)) := by
  refine ⟨?_, ?_, ?_⟩
  · intro v e0 e1 h0 hq0 h1 hq1 h2
    refine ⟨?_, by norm_num⟩
    simp [withRetry, withRetryGo, h0, h1, h2, hq0, hq1]
  · intro e h0 hq hs
    simp [withRetry, withRetryGo, h0, hq, hs]
  · intro e0 e1 e2 h0 hr0 h1 hr1 h2
    simp [withRetry, withRetryGo, h0, h1, h2, hr0, hr1]

/-- C1 witness: a concrete operation failing twice with HTTP-429 errors
and succeeding with value 7 on the third attempt, and a concrete
operation whose only failure is a non-quota, non-parse error. -/
theorem withRetry_retry_policy_witness :
    withRetry (fun i => if i < 2 then Except.error ⟨some 429, [], false⟩ else Except.ok (7 : Nat))
      = (Except.ok 7, 6000)
    ∧ withRetry (fun _ => (Except.error ⟨none, chars "boom", false⟩ : Except JsError Nat))
      = (Except.error (some ⟨none, chars "boom", false⟩), 0) :=
  ⟨((withRetry_retry_policy _).1 7 ⟨some 429, [], false⟩ ⟨some 429, [], false⟩
      rfl (by decide) rfl (by decide) rfl).1,
   (withRetry_retry_policy _).2.1 ⟨none, chars "boom", false⟩
      rfl (by decide) (by decide)⟩

/-- The fixed subject enumeration (`Subject` in the types section of
`src/App.tsx`, lines 451–457). -/
inductive Subject
  | KOKUGO | SANSU | RIKA | SHAKAI | OTHER
deriving DecidableEq

/-- The three-state mastery enumeration (`MasteryLevel`, `src/App.tsx`
lines 459–463). -/
inductive MasteryLevel
  | NEW | REVIEWING | MASTERED
deriving DecidableEq

/-- The `MistakeItem` record (`src/App.tsx` lines 473–494, the current
variant with the `imageBase64` backup field).  Optional free-text fields
(`imageUrl?`, `userNotes?`, …) are embedded as plain strings, absent
being the empty string: the source only ever tests them for truthiness
or passes them through, and the empty string behaves as `undefined`
under every such use (`x || ''`, `x && x.startsWith(...)`).  The
`imageBase64?` field is the one optional field whose *presence* matters
(a Firestore merge-write only touches present fields), so it is
embedded as `Option Str`.  `aiTokenUsage` and other AI fields are
carried as opaque strings/naturals; no claim inspects them. -/
structure MistakeItem where
  id : Str
  createdAt : Nat
  imageUrl : Str
  imageBase64 : Option Str
  questionText : Str
  userNotes : Str
  userCorrectAnswer : Str
  reflection : Str
  reflectionImage : Str
  aiSolution : Str
  aiAnalysis : Str
  aiDiagram : Str
  tags : List Str
  subject : Subject
  mastery : MasteryLevel
  reviewCount : Nat
deriving DecidableEq

/-- The descending-`createdAt` order used by the local store's read path:
`results.sort((a, b) => b.createdAt - a.createdAt)` sorts so that every
earlier element has `createdAt` at least that of every later one. -/
def byCreatedAtDesc (a b : MistakeItem) : Prop := b.createdAt ≤ a.createdAt

instance : DecidableRel byCreatedAtDesc := fun a b => Nat.decLe b.createdAt a.createdAt

instance : IsTotal MistakeItem byCreatedAtDesc :=
  ⟨fun a b => Nat.le_total b.createdAt a.createdAt⟩

instance : IsTrans MistakeItem byCreatedAtDesc :=
  ⟨fun _ _ _ h1 h2 => Nat.le_trans h2 h1⟩

/-- The local IndexedDB object store `mistakes`, keyed by `id`
(`src/services/db.ts`): its contents, in insertion order. -/
abbrev LocalStore := List MistakeItem

/-- IndexedDB `store.put(item)`: overwrite the entry with the same key
if one exists, otherwise append the item. -/
def putRecord (store : LocalStore) (item : MistakeItem) : LocalStore :=
  if store.any (fun r => r.id == item.id) then
    store.map (fun r => if r.id == item.id then item else r)
  else store ++ [item]

/-- The error taxonomy of the local store: IndexedDB `store.add`
rejects with a `ConstraintError` when the key already exists
(the spec's `DuplicateKey`). -/
inductive DbError
  | duplicateKey
deriving DecidableEq

/-- `dbService.getAllMistakes` (`src/services/db.ts` lines 32–47):
`getAll` of the store followed by
`results.sort((a, b) => b.createdAt - a.createdAt)`. -/
def dbService.getAllMistakes (store : LocalStore) : List MistakeItem :=
  store.insertionSort byCreatedAtDesc

/-- `dbService.addMistake` (`src/services/db.ts` lines 50–60):
IndexedDB `store.add(item)`, which fails when the key `item.id` is
already present and otherwise inserts the item. -/
def dbService.addMistake (store : LocalStore) (item : MistakeItem) :
    Except DbError LocalStore :=
  if store.any (fun r => r.id == item.id) then Except.error DbError.duplicateKey
  else Except.ok (store ++ [item])

/-- `dbService.updateMistake` (`src/services/db.ts` lines 63–73):
IndexedDB `store.put(item)`, an unconditional upsert. -/
def dbService.updateMistake (store : LocalStore) (item : MistakeItem) : LocalStore :=
  putRecord store item

/-- `item.id && item.questionText`: the minimal validation of
`dbService.importData`; for strings, JS truthiness is non-emptiness. -/
def validRecord (item : MistakeItem) : Bool :=
  !item.id.isEmpty && !item.questionText.isEmpty

/-- Result of a bulk import: the final store contents together with the
source's `processedCount` and `errorCount` counters. -/
structure ImportResult where
  store : LocalStore
  processedCount : Nat
  errorCount : Nat
deriving DecidableEq

/-- The `items.forEach` loop of `dbService.importData`: each valid item
is `put` (upsert) and counted in `processedCount`; each invalid one is
only counted in `errorCount`. -/
def importGo : List MistakeItem → ImportResult → ImportResult
  | [], acc => acc
  | item :: rest, acc =>
    if validRecord item then
      importGo rest ⟨putRecord acc.store item, acc.processedCount + 1, acc.errorCount⟩
    else
      importGo rest ⟨acc.store, acc.processedCount, acc.errorCount + 1⟩

/-- `dbService.importData` (`src/services/db.ts` lines 76–105).  The
early return on an empty input list coincides with running the loop on
an empty list, so a single definition covers both paths.  The operation
resolves when the transaction commits, i.e. it is a total function on
the embedded state. -/
def dbService.importData (store : LocalStore) (items : List MistakeItem) : ImportResult :=
  importGo items ⟨store, 0, 0⟩

/-- A document in a user's `users/{uid}/mistakes` Firestore collection.
`record` holds the `MistakeItem` fields of the document body (the
creation path writes `{...item, imageUrl: finalImageUrl, imageBase64:
base64Backup, userId: user.uid}`); `userId` is the extra identity tag,
`none` when the document was never written by the creation path (a
merge-write against a missing document creates it without that field). -/
structure StoredDoc where
  record : MistakeItem
  userId : Option Str
deriving DecidableEq

/-- One authenticated user's cloud collection of mistake documents,
keyed by `record.id`, in creation order. -/
abbrev CloudStore := List StoredDoc

/-- Look up the document with the given id (Firestore
`doc(db, 'users', uid, 'mistakes', id)` resolution). -/
def findDoc (docs : CloudStore) (id : Str) : Option StoredDoc :=
  docs.find? (fun d => d.record.id == id)

/-- Firestore `setDoc(docRef, body)` without merge: replace the
document with that id, or create it. -/
def setDocOverwrite (docs : CloudStore) (d : StoredDoc) : CloudStore :=
  if docs.any (fun d0 => d0.record.id == d.record.id) then
    docs.map (fun d0 => if d0.record.id == d.record.id then d else d0)
  else docs ++ [d]

/-- The effect of `setDoc(docRef, item, { merge: true })` on one
existing document: every field present in the call shape overwrites the
stored field; fields absent from the call shape (`userId`, and
`imageBase64` when the item does not carry it) keep their stored
values. -/
def mergeItem (old : StoredDoc) (item : MistakeItem) : StoredDoc :=
  { record :=
      { item with
        imageBase64 :=
          match item.imageBase64 with
          | some b => some b
          | none => old.record.imageBase64 },
    userId := old.userId }

/-- Firestore `setDoc(docRef, item, { merge: true })`: merge into the
existing document, or create the document from the call shape alone. -/
def setDocMerge (docs : CloudStore) (item : MistakeItem) : CloudStore :=
  if docs.any (fun d0 => d0.record.id == item.id) then
    docs.map (fun d0 => if d0.record.id == item.id then mergeItem d0 item else d0)
  else docs ++ [{ record := item, userId := none }]

/-- The `data:` prefix test `imageUrl.startsWith('data:')` marking an
inline payload. -/
def dataPrefix : Str := chars "data:"

/-- The per-document size headroom used by `firebaseService.addMistake`:
`950 * 1024` (the source's `~900KB`-commented check against the
Firestore 1 MB document limit). -/
def docSizeCeiling : Nat := 950 * 1024

/-- Error taxonomy of the remote adapter relevant to the claims:
`new Error("Image upload failed and image is too large for offline
backup.")` is the spec's `ImageTooLargeForFallback`. -/
inductive FbError
  | imageTooLargeForFallback
deriving DecidableEq

/-- `firebaseService.uploadImage(userId, dataUrl)` (`src/services/firebase.ts`
lines 55–74): a non-`data:` argument is returned unchanged without any
network traffic; an inline payload is uploaded under a randomized
identity-scoped path, racing a 60 s timer.  The network outcome of that
race plus `getDownloadURL` (an environmental effect) is passed in as
`uploadOutcome`: `Except.ok url` is a successful upload resolving to
the download URL, `Except.error e` is an upload failure or timeout. -/
def firebaseService.uploadImage (uploadOutcome : Except JsError Str) (dataUrl : Str) :
    Except JsError Str :=
  if dataPrefix.isPrefixOf dataUrl then uploadOutcome else Except.ok dataUrl

/-- `firebaseService.addMistake` in cloud mode (`src/services/firebase.ts`
lines 78–119; the anonymous branch delegates to `dbService.addMistake`).
If the incoming `imageUrl` is inline: the Base64 backup copy is kept
when the payload is shorter than `950 * 1024`; the upload is attempted,
a success replacing `imageUrl` with the download URL; on upload failure
the inline payload itself is stored as `imageUrl` when below the same
ceiling, and otherwise the whole write throws (so `setDoc` is never
reached and no document is written).  The final `setDoc` stores
`{...item, imageUrl: finalImageUrl, imageBase64: base64Backup,
userId: user.uid}` keyed by `item.id`. -/
def firebaseService.addMistake (uploadOutcome : Except JsError Str) (uid : Str)
    (docs : CloudStore) (item : MistakeItem) : Except FbError CloudStore :=
  if dataPrefix.isPrefixOf item.imageUrl then
    let base64Backup : Str :=
      if item.imageUrl.length < docSizeCeiling then item.imageUrl else []
    match firebaseService.uploadImage uploadOutcome item.imageUrl with
    | Except.ok url =>
      Except.ok (setDocOverwrite docs
        { record := { item with imageUrl := url, imageBase64 := some base64Backup },
          userId := some uid })
    | Except.error _ =>
      if item.imageUrl.length < docSizeCeiling then
        Except.ok (setDocOverwrite docs
          { record := { item with imageBase64 := some base64Backup },
            userId := some uid })
      else Except.error FbError.imageTooLargeForFallback
  else
    Except.ok (setDocOverwrite docs
      { record := { item with imageBase64 := some [] }, userId := some uid })

/-- `firebaseService.getAllMistakes` in cloud mode
(`src/services/firebase.ts` lines 121–133): `query(mistakesRef,
orderBy('createdAt', 'desc'))` makes the backend return the
collection's documents sorted by `createdAt` descending (embedded as an
insertion sort under `byCreatedAtDesc`), and `snapshot.docs.map(doc =>
doc.data())` projects the record bodies. -/
def firebaseService.getAllMistakes (docs : CloudStore) : List MistakeItem :=
  (docs.map (fun d => d.record)).insertionSort byCreatedAtDesc

/-- `firebaseService.updateMistake` in cloud mode
(`src/services/firebase.ts` lines 135–149): a single
`setDoc(docRef, item, { merge: true })`.  No image handling runs on
this path (the source comment defers it), so the incoming `imageUrl` —
inline or not — is merged unchanged. -/
def firebaseService.updateMistake (docs : CloudStore) (item : MistakeItem) : CloudStore :=
  setDocMerge docs item

/-- The behaviour claim C3 asserts of `updateMistake`, stated from the
spec's words for comparison with the source: when `imageUrl` is inline,
first run the create-time image-handling rules (upload with timeout;
on failure fall back to the inline payload below the ceiling, else fail
with `ImageTooLargeForFallback`), then merge-write the record carrying
the resulting `imageUrl`. -/
def updateMistakeSpec (uploadOutcome : Except JsError Str)
    (docs : CloudStore) (item : MistakeItem) : Except FbError CloudStore :=
  if dataPrefix.isPrefixOf item.imageUrl then
    match firebaseService.uploadImage uploadOutcome item.imageUrl with
    | Except.ok url => Except.ok (setDocMerge docs { item with imageUrl := url })
    | Except.error _ =>
      if item.imageUrl.length < docSizeCeiling then
        Except.ok (setDocMerge docs item)
      else Except.error FbError.imageTooLargeForFallback
  else Except.ok (setDocMerge docs item)

/-- A concrete baseline record used by concrete scenarios and
witnesses: a freshly created record as the add-modal builds it. -/
def sampleItem : MistakeItem where
  id := chars "r1"
  createdAt := 100
  imageUrl := []
  imageBase64 := none
  questionText := chars "q"
  userNotes := []
  userCorrectAnswer := []
  reflection := []
  reflectionImage := []
  aiSolution := []
  aiAnalysis := []
  aiDiagram := []
  tags := []
  subject := Subject.SANSU
  mastery := MasteryLevel.NEW
  reviewCount := 0

/-- C4: `listAll` returns the stored records sorted by `createdAt`
descending for any stored contents (hence any insertion order), both
for the local store and for the remote adapter; in particular two
records with `createdAt` 100 and 200, inserted in that order, come back
with the 200 record first. -/
theorem getAllMistakes_sorted_desc :
    (∀ store : LocalStore,
      List.Sorted byCreatedAtDesc (dbService.getAllMistakes store) ∧
      (dbService.getAllMistakes store).Perm store)
    ∧ (∀ docs : CloudStore,
      List.Sorted byCreatedAtDesc (firebaseService.getAllMistakes docs) ∧
      (firebaseService.getAllMistakes docs).Perm (docs.map (fun d => d.record)))
    ∧ dbService.getAllMistakes [sampleItem, { sampleItem with id := chars "r2", createdAt := 200 }]
        = [{ sampleItem with id := chars "r2", createdAt := 200 }, sampleItem]
    ∧ firebaseService.getAllMistakes
        [⟨sampleItem, none⟩, ⟨{ sampleItem with id := chars "r2", createdAt := 200 }, none⟩]
        = [{ sampleItem with id := chars "r2", createdAt := 200 }, sampleItem] := by
  refine ⟨fun store => ⟨List.sorted_insertionSort _ _, List.perm_insertionSort _ _⟩,
          fun docs => ⟨List.sorted_insertionSort _ _, List.perm_insertionSort _ _⟩, ?_, ?_⟩
  · decide
  · decide

/-- For any predicate, a list splits into its satisfying and its
non-satisfying elements. -/
theorem filter_length_split (p : MistakeItem → Bool) :
    ∀ items : List MistakeItem,
      (items.filter p).length + (items.filter (fun i => !p i)).length = items.length := by
  intro items
  induction items with
  | nil => simp
  | cons item rest ih =>
    by_cases h : p item = true
    · simp [List.filter_cons, h]; omega
    · simp [List.filter_cons, h]; omega

/-- Unfolding of the import loop: the final store is the fold of `put`
over exactly the records passing validation, and the two counters count
the valid and the invalid records. -/
theorem importGo_eq : ∀ (items : List MistakeItem) (acc : ImportResult),
    importGo items acc =
      ⟨(items.filter validRecord).foldl putRecord acc.store,
       acc.processedCount + (items.filter validRecord).length,
       acc.errorCount + (items.filter (fun i => !validRecord i)).length⟩ := by
  intro items
  induction items with
  | nil => intro acc; simp [importGo]
  | cons item rest ih =>
    intro acc
    by_cases h : validRecord item = true
    · simp [importGo, h, ih, List.filter_cons, ImportResult.mk.injEq]
      omega
    · simp [importGo, h, ih, List.filter_cons, ImportResult.mk.injEq]
      omega

/-- After an upsert, the upserted key is present. -/
theorem putRecord_any_self (store : LocalStore) (item : MistakeItem) :
    (putRecord store item).any (fun r => r.id == item.id) = true := by
  unfold putRecord
  by_cases h : store.any (fun r => r.id == item.id) = true
  · simp only [h, if_true]
    obtain ⟨r, hr, hid⟩ := List.any_eq_true.mp h
    exact List.any_eq_true.mpr ⟨item, List.mem_map.mpr ⟨r, hr, by simp [hid]⟩, by simp⟩
  · simp only [h, if_false]
    exact List.any_eq_true.mpr ⟨item, List.mem_append_right _ (List.mem_singleton.mpr rfl), by simp⟩

/-- An upsert never removes a present key. -/
theorem putRecord_any_mono (store : LocalStore) (item : MistakeItem) (x : Str)
    (h : store.any (fun r => r.id == x) = true) :
    (putRecord store item).any (fun r => r.id == x) = true := by
  unfold putRecord
  by_cases hex : store.any (fun r => r.id == item.id) = true
  · simp only [hex, if_true]
    obtain ⟨r, hr, hid⟩ := List.any_eq_true.mp h
    by_cases hri : (r.id == item.id) = true
    · refine List.any_eq_true.mpr ⟨item, List.mem_map.mpr ⟨r, hr, by simp [hri]⟩, ?_⟩
      have h1 : r.id = item.id := beq_iff_eq.mp hri
      have h2 : r.id = x := beq_iff_eq.mp hid
      exact beq_iff_eq.mpr (h1 ▸ h2)
    · refine List.any_eq_true.mpr ⟨r, List.mem_map.mpr ⟨r, hr, by simp [hri]⟩, hid⟩
  · simp only [hex, if_false]
    obtain ⟨r, hr, hid⟩ := List.any_eq_true.mp h
    exact List.any_eq_true.mpr ⟨r, List.mem_append_left _ hr, hid⟩

/-- Folding upserts preserves present keys. -/
theorem foldl_putRecord_pres (x : Str) :
    ∀ (items : List MistakeItem) (acc : LocalStore),
      acc.any (fun r => r.id == x) = true →
      (items.foldl putRecord acc).any (fun r => r.id == x) = true := by
  intro items
  induction items with
  | nil => intro acc h; simpa using h
  | cons item rest ih => intro acc h; exact ih _ (putRecord_any_mono _ _ _ h)

/-- Every record in the folded batch ends up present. -/
theorem foldl_putRecord_mem :
    ∀ (items : List MistakeItem) (acc : LocalStore) (item : MistakeItem), item ∈ items →
      (items.foldl putRecord acc).any (fun r => r.id == item.id) = true := by
  intro items
  induction items with
  | nil => intro acc item h; cases h
  | cons hd rest ih =>
    intro acc item h
    rcases List.mem_cons.mp h with rfl | hmem
    · exact foldl_putRecord_pres _ rest _ (putRecord_any_self acc item)
    · exact ih _ _ hmem

/-- C5: `bulkImport` of `items` over `store` upserts exactly the records
with non-empty `id` and `questionText` (the final store is the fold of
the upsert over exactly those, and each of them is present afterwards),
counts the invalid ones as skipped (`processedCount + errorCount = N`,
`errorCount = K`, `processedCount = N − K`), and completes as a total
operation rather than failing on the skipped items. -/
theorem importData_skips_invalid (store : LocalStore) (items : List MistakeItem) :
    (dbService.importData store items).store = (items.filter validRecord).foldl putRecord store
    ∧ (dbService.importData store items).processedCount = (items.filter validRecord).length
    ∧ (dbService.importData store items).errorCount
        = (items.filter (fun i => !validRecord i)).length
    ∧ (dbService.importData store items).processedCount
        + (dbService.importData store items).errorCount = items.length
    ∧ (∀ item ∈ items, validRecord item = true →
        ((dbService.importData store items).store.any (fun r => r.id == item.id)) = true) := by
  have hgo := importGo_eq items ⟨store, 0, 0⟩
  refine ⟨?_, ?_, ?_, ?_, ?_⟩
  · simp [dbService.importData, hgo]
  · simp [dbService.importData, hgo]
  · simp [dbService.importData, hgo]
  · simp [dbService.importData, hgo]
    exact filter_length_split validRecord items
  · intro item hm hv
    simp only [dbService.importData, hgo]
    exact foldl_putRecord_mem _ _ _ (List.mem_filter.mpr ⟨hm, hv⟩)

/-- C5 witness: importing one valid and one invalid record (empty `id`)
into an empty store: one upserted and present, one skipped and counted,
the operation completing. -/
theorem importData_skips_invalid_witness :
    (dbService.importData [] [sampleItem, { sampleItem with id := [] }]).processedCount = 1
    ∧ (dbService.importData [] [sampleItem, { sampleItem with id := [] }]).errorCount = 1
    ∧ (dbService.importData [] [sampleItem, { sampleItem with id := [] }]).store.any
        (fun r => r.id == sampleItem.id) = true :=
  ⟨(importData_skips_invalid [] _).2.1.trans (by decide),
   (importData_skips_invalid [] _).2.2.1.trans (by decide),
   (importData_skips_invalid [] _).2.2.2.2 sampleItem (by simp) (by decide)⟩

/-- C6: a local create whose id is already present fails with
`DuplicateKey` (the store value is not part of a failing result, so the
store is unchanged), while a local update with a missing key acts as
create: it succeeds unconditionally and appends the record. -/
theorem addMistake_duplicateKey_update_upsert (store : LocalStore) (item : MistakeItem) :
    ((∃ r ∈ store, r.id = item.id) →
        dbService.addMistake store item = Except.error DbError.duplicateKey)
    ∧ ((∀ r ∈ store, r.id ≠ item.id) →
        dbService.updateMistake store item = store ++ [item]) := by
  constructor
  · rintro ⟨r, hr, hid⟩
    have h : store.any (fun r => r.id == item.id) = true :=
      List.any_eq_true.mpr ⟨r, hr, beq_iff_eq.mpr hid⟩
    simp [dbService.addMistake, h]
  · intro h
    have hfalse : store.any (fun r => r.id == item.id) = false := by
      rw [List.any_eq_false]
      intro r hr
      simpa [beq_iff_eq] using h r hr
    simp [dbService.updateMistake, putRecord, hfalse]

/-- C6 witness: creating over an existing identical id fails with
`DuplicateKey`; updating into an empty store inserts the record. -/
theorem addMistake_duplicateKey_update_upsert_witness :
    dbService.addMistake [sampleItem] sampleItem = Except.error DbError.duplicateKey
    ∧ dbService.updateMistake [] sampleItem = [sampleItem] :=
  ⟨(addMistake_duplicateKey_update_upsert [sampleItem] sampleItem).1
      ⟨sampleItem, by simp, rfl⟩,
   (addMistake_duplicateKey_update_upsert [] sampleItem).2 (by simp)⟩

/-- In the overwrite branch of an upsert-write, the lookup of the
written key finds the new document. -/
theorem findDoc_overwrite_map :
    ∀ (docs : CloudStore) (d : StoredDoc),
      docs.any (fun d0 => d0.record.id == d.record.id) = true →
      findDoc (docs.map (fun d0 => if d0.record.id == d.record.id then d else d0)) d.record.id
        = some d := by
  intro docs d
  induction docs with
  | nil => intro h; simp at h
  | cons d0 rest ih =>
    intro h
    by_cases h0 : (d0.record.id == d.record.id) = true
    · rw [List.map_cons, if_pos h0]
      unfold findDoc
      rw [List.find?_cons]
      simp
    · have h' : rest.any (fun d0 => d0.record.id == d.record.id) = true := by
        simpa [List.any_cons, h0] using h
      have h0f : (d0.record.id == d.record.id) = false := by simpa using h0
      rw [List.map_cons, if_neg h0]
      unfold findDoc
      rw [List.find?_cons, h0f]
      exact ih h'

/-- After `setDoc` without merge, the written key resolves to the
written document. -/
theorem findDoc_setDocOverwrite (docs : CloudStore) (d : StoredDoc) (x : Str)
    (hx : d.record.id = x) :
    findDoc (setDocOverwrite docs d) x = some d := by
  subst hx
  unfold setDocOverwrite
  by_cases h : docs.any (fun d0 => d0.record.id == d.record.id) = true
  · rw [if_pos h]
    exact findDoc_overwrite_map docs d h
  · rw [if_neg h]
    unfold findDoc
    rw [List.find?_append]
    have hnone : docs.find? (fun d1 => d1.record.id == d.record.id) = none :=
      List.find?_eq_none.mpr (List.any_eq_false.mp (by simpa using h))
    rw [hnone, List.find?_cons]
    simp

/-- In the merge branch of a merge-write against an existing document,
the lookup of the written key finds the merged document. -/
theorem findDoc_merge_map :
    ∀ (docs : CloudStore) (item : MistakeItem) (old : StoredDoc),
      findDoc docs item.id = some old →
      findDoc
          (docs.map (fun d0 => if d0.record.id == item.id then mergeItem d0 item else d0))
          item.id
        = some (mergeItem old item) := by
  intro docs item
  induction docs with
  | nil => intro old h; simp [findDoc] at h
  | cons d0 rest ih =>
    intro old h
    by_cases h0 : (d0.record.id == item.id) = true
    · have hold : d0 = old := by
        unfold findDoc at h
        rw [List.find?_cons, h0] at h
        exact Option.some.inj h
      subst hold
      rw [List.map_cons, if_pos h0]
      unfold findDoc
      rw [List.find?_cons]
      have hm : ((mergeItem d0 item).record.id == item.id) = true := by
        simp [mergeItem]
      rw [hm]
    · have h0f : (d0.record.id == item.id) = false := by simpa using h0
      have h' : findDoc rest item.id = some old := by
        unfold findDoc at h
        rw [List.find?_cons, h0f] at h
        exact h
      rw [List.map_cons, if_neg h0]
      unfold findDoc
      rw [List.find?_cons, h0f]
      exact ih old h'

/-- A merge-write against an existing document stores exactly the merge
of the call shape into that document. -/
theorem findDoc_setDocMerge (docs : CloudStore) (item : MistakeItem) (old : StoredDoc)
    (h : findDoc docs item.id = some old) :
    findDoc (setDocMerge docs item) item.id = some (mergeItem old item) := by
  have h' : List.find? (fun d0 => d0.record.id == item.id) docs = some old := h
  have hp : (old.record.id == item.id) = true :=
    @List.find?_some _ (fun d0 => d0.record.id == item.id) old docs h'
  have hmem : old ∈ docs := List.mem_of_find?_eq_some h'
  have hany : docs.any (fun d0 => d0.record.id == item.id) = true :=
    List.any_eq_true.mpr ⟨old, hmem, hp⟩
  unfold setDocMerge
  rw [if_pos hany]
  exact findDoc_merge_map docs item old h

/-- C2: cloud-mode create with an inline (`data:`) payload whose blob
upload fails or times out: when the payload's encoded size is below the
`950 * 1024` ceiling, the create succeeds and the stored document's
`imageUrl` is the original inline payload (degraded fallback); at or
above the ceiling it fails with `ImageTooLargeForFallback`, the throw
happening before `setDoc`, so a failing result carries no written
document. -/
theorem addMistake_upload_failure_fallback (uid : Str) (docs : CloudStore)
    (item : MistakeItem) (e : JsError)
    (hinline : dataPrefix.isPrefixOf item.imageUrl = true) :
    (item.imageUrl.length < docSizeCeiling →
      ∃ docs', firebaseService.addMistake (Except.error e) uid docs item = Except.ok docs'
        ∧ (findDoc docs' item.id).map (fun d => d.record.imageUrl) = some item.imageUrl)
    ∧ (docSizeCeiling ≤ item.imageUrl.length →
      firebaseService.addMistake (Except.error e) uid docs item
        = Except.error FbError.imageTooLargeForFallback) := by
  constructor
  · intro hlen
    have hres : firebaseService.addMistake (Except.error e) uid docs item
        = Except.ok (setDocOverwrite docs
            ⟨{ item with imageBase64 := some item.imageUrl }, some uid⟩) := by
      simp [firebaseService.addMistake, firebaseService.uploadImage, hinline, hlen]
    refine ⟨_, hres, ?_⟩
    rw [findDoc_setDocOverwrite docs ⟨{ item with imageBase64 := some item.imageUrl }, some uid⟩
      item.id rfl]
    rfl
  · intro hge
    have hnl : ¬ item.imageUrl.length < docSizeCeiling := Nat.not_lt.mpr hge
    simp [firebaseService.addMistake, firebaseService.uploadImage, hinline, hnl]

/-- A record whose inline payload is one `'a'` short of nothing: the
small concrete inline-image record used by witnesses. -/
def itemInlineSmall : MistakeItem := { sampleItem with imageUrl := chars "data:abc" }

/-- A concrete inline-image record whose payload length
(`5 + 950*1024`) is at or above the per-document ceiling. -/
def itemInlineBig : MistakeItem :=
  { sampleItem with imageUrl := dataPrefix ++ List.replicate docSizeCeiling 'a' }

/-- A concrete upload failure (network error / timeout). -/
def uploadFailure : JsError := ⟨none, chars "Image upload timed out (60s). Check connection.", false⟩

/-- C2 witness: the concrete small inline record falls back to inline
storage under a forced upload failure; the concrete over-ceiling record
makes the create fail with `ImageTooLargeForFallback`. -/
theorem addMistake_upload_failure_fallback_witness :
    (∃ docs', firebaseService.addMistake (Except.error uploadFailure) (chars "u") [] itemInlineSmall
        = Except.ok docs'
      ∧ (findDoc docs' itemInlineSmall.id).map (fun d => d.record.imageUrl)
          = some itemInlineSmall.imageUrl)
    ∧ firebaseService.addMistake (Except.error uploadFailure) (chars "u") [] itemInlineBig
        = Except.error FbError.imageTooLargeForFallback :=
  ⟨(addMistake_upload_failure_fallback (chars "u") [] itemInlineSmall uploadFailure
      (by decide)).1 (by decide),
   (addMistake_upload_failure_fallback (chars "u") [] itemInlineBig uploadFailure
      (by rw [show itemInlineBig.imageUrl = dataPrefix ++ List.replicate docSizeCeiling 'a' from rfl]
          exact List.isPrefixOf_iff_prefix.mpr (List.prefix_append _ _))).2
      (by rw [show itemInlineBig.imageUrl = dataPrefix ++ List.replicate docSizeCeiling 'a' from rfl]
          rw [List.length_append, List.length_replicate]
          exact Nat.le_add_left _ _)⟩

/-- C9: whenever cloud-mode create writes a document: an inline payload
below the ceiling is retained verbatim in the `imageBase64` backup
field, whether the upload succeeded or the inline fallback was taken;
an at-or-above-ceiling payload and a non-inline `imageUrl` leave the
written backup field empty; and a merge-update whose call shape does
not carry the backup field (a plain update, image unchanged) leaves the
stored backup untouched. -/
theorem addMistake_imageBase64_backup :
    (∀ (up : Except JsError Str) (uid : Str) (docs docs' : CloudStore) (item : MistakeItem),
      dataPrefix.isPrefixOf item.imageUrl = true →
      item.imageUrl.length < docSizeCeiling →
      firebaseService.addMistake up uid docs item = Except.ok docs' →
      (findDoc docs' item.id).map (fun d => d.record.imageBase64) = some (some item.imageUrl))
    ∧ (∀ (up : Except JsError Str) (uid : Str) (docs docs' : CloudStore) (item : MistakeItem),
      dataPrefix.isPrefixOf item.imageUrl = true →
      docSizeCeiling ≤ item.imageUrl.length →
      firebaseService.addMistake up uid docs item = Except.ok docs' →
      (findDoc docs' item.id).map (fun d => d.record.imageBase64) = some (some []))
    ∧ (∀ (up : Except JsError Str) (uid : Str) (docs docs' : CloudStore) (item : MistakeItem),
      dataPrefix.isPrefixOf item.imageUrl = false →
      firebaseService.addMistake up uid docs item = Except.ok docs' →
      (findDoc docs' item.id).map (fun d => d.record.imageBase64) = some (some []))
    ∧ (∀ (docs : CloudStore) (item : MistakeItem) (old : StoredDoc),
      findDoc docs item.id = some old →
      item.imageBase64 = none →
      (findDoc (firebaseService.updateMistake docs item) item.id).map
          (fun d => d.record.imageBase64) = some old.record.imageBase64) := by
  refine ⟨?_, ?_, ?_, ?_⟩
  · intro up uid docs docs' item hinline hlen hok
    cases up with
    | ok url =>
      have hres : docs' = setDocOverwrite docs
          ⟨{ item with imageUrl := url, imageBase64 := some item.imageUrl }, some uid⟩ := by
        have := hok
        simp [firebaseService.addMistake, firebaseService.uploadImage, hinline, hlen] at this
        exact this.symm
      subst hres
      rw [findDoc_setDocOverwrite docs
        ⟨{ item with imageUrl := url, imageBase64 := some item.imageUrl }, some uid⟩ item.id rfl]
      rfl
    | error e =>
      have hres : docs' = setDocOverwrite docs
          ⟨{ item with imageBase64 := some item.imageUrl }, some uid⟩ := by
        have := hok
        simp [firebaseService.addMistake, firebaseService.uploadImage, hinline, hlen] at this
        exact this.symm
      subst hres
      rw [findDoc_setDocOverwrite docs
        ⟨{ item with imageBase64 := some item.imageUrl }, some uid⟩ item.id rfl]
      rfl
  · intro up uid docs docs' item hinline hge hok
    have hnl : ¬ item.imageUrl.length < docSizeCeiling := Nat.not_lt.mpr hge
    cases up with
    | ok url =>
      have hres : docs' = setDocOverwrite docs
          ⟨{ item with imageUrl := url, imageBase64 := some [] }, some uid⟩ := by
        have := hok
        simp [firebaseService.addMistake, firebaseService.uploadImage, hinline, hnl] at this
        exact this.symm
      subst hres
      rw [findDoc_setDocOverwrite docs
        ⟨{ item with imageUrl := url, imageBase64 := some [] }, some uid⟩ item.id rfl]
      rfl
    | error e =>
      have := hok
      simp [firebaseService.addMistake, firebaseService.uploadImage, hinline, hnl] at this
  · intro up uid docs docs' item hinline hok
    have hres : docs' = setDocOverwrite docs
        ⟨{ item with imageBase64 := some [] }, some uid⟩ := by
      have := hok
      simp [firebaseService.addMistake, firebaseService.uploadImage, hinline] at this
      exact this.symm
    subst hres
    rw [findDoc_setDocOverwrite docs
      ⟨{ item with imageBase64 := some [] }, some uid⟩ item.id rfl]
    rfl
  · intro docs item old h hnone
    rw [firebaseService.updateMistake, findDoc_setDocMerge docs item old h]
    simp [mergeItem, hnone]

/-- C9 witness: a successful upload of the small inline record keeps
the payload in the backup field; a plain merge-update (no `imageBase64`
in the call shape) against this document preserves the stored backup. -/
theorem addMistake_imageBase64_backup_witness :
    (findDoc (setDocOverwrite []
        ⟨{ itemInlineSmall with
           imageUrl := chars "https://x"
           imageBase64 := some (chars "data:abc") }, some (chars "u")⟩)
        itemInlineSmall.id).map (fun d => d.record.imageBase64)
      = some (some itemInlineSmall.imageUrl)
    ∧ (findDoc
        (firebaseService.updateMistake
          [⟨{ itemInlineSmall with
              imageUrl := chars "https://x"
              imageBase64 := some (chars "data:abc") }, some (chars "u")⟩]
          { itemInlineSmall with mastery := MasteryLevel.REVIEWING })
        itemInlineSmall.id).map (fun d => d.record.imageBase64)
      = some (some (chars "data:abc")) :=
  ⟨(addMistake_imageBase64_backup).1 (Except.ok (chars "https://x")) (chars "u") [] _
      itemInlineSmall (by decide) (by decide) rfl,
   by
    have := (addMistake_imageBase64_backup).2.2.2
      [⟨{ itemInlineSmall with
          imageUrl := chars "https://x"
          imageBase64 := some (chars "data:abc") }, some (chars "u")⟩]
      { itemInlineSmall with mastery := MasteryLevel.REVIEWING }
      ⟨{ itemInlineSmall with
         imageUrl := chars "https://x"
         imageBase64 := some (chars "data:abc") }, some (chars "u")⟩
      (by decide) rfl
    exact this⟩

/-- The stored document the C3 scenarios update: created earlier with a
resolved `imageUrl`, a backup copy and the identity tag. -/
def oldDoc : StoredDoc :=
  ⟨{ sampleItem with imageUrl := chars "https://old", imageBase64 := some (chars "backup") },
   some (chars "uid1")⟩

/-- A call shape whose `imageUrl` is freshly inline (changed since last
sync) and which carries no backup field. -/
def inlineUpdate : MistakeItem :=
  { sampleItem with imageUrl := chars "data:new", imageBase64 := none }

/-- C3 counterexample: at this concrete input the code's update leaves
the freshly inline `imageUrl` stored inline, performing no upload,
while the claimed create-time image handling (with a successful upload
resolving to `https://new`) would store the resolved URL — so the
claim, as stated, is false of `firebaseService.updateMistake`. -/
theorem updateMistake_no_image_handling_counterexample :
    (findDoc (firebaseService.updateMistake [oldDoc] inlineUpdate) (chars "r1")).map
        (fun d => d.record.imageUrl) = some (chars "data:new")
    ∧ (match updateMistakeSpec (Except.ok (chars "https://new")) [oldDoc] inlineUpdate with
       | Except.ok ds => (findDoc ds (chars "r1")).map (fun d => d.record.imageUrl)
       | Except.error _ => none) = some (chars "https://new")
    ∧ chars "data:new" ≠ chars "https://new" := by
  refine ⟨by decide, by decide, by decide⟩

/-- C3 (amended): cloud-mode update performs a single merge-write of
the full record into the existing document, preserving the document
fields absent from the call shape (the identity tag, and the
`imageBase64` backup when the call does not carry one); it does not run
the create-time image-handling rules — the incoming `imageUrl`, even
when freshly inline, is merged unchanged and no upload happens. -/
theorem updateMistake_merge_write (docs : CloudStore) (item : MistakeItem) (old : StoredDoc)
    (h : findDoc docs item.id = some old) :
    findDoc (firebaseService.updateMistake docs item) item.id = some (mergeItem old item)
    ∧ (mergeItem old item).record.imageUrl = item.imageUrl
    ∧ (mergeItem old item).userId = old.userId
    ∧ (item.imageBase64 = none →
        (mergeItem old item).record.imageBase64 = old.record.imageBase64)
    ∧ (mergeItem old item).record.questionText = item.questionText
    ∧ (mergeItem old item).record.mastery = item.mastery := by
  refine ⟨findDoc_setDocMerge docs item old h, rfl, rfl, ?_, rfl, rfl⟩
  intro hnone
  simp [mergeItem, hnone]

/-- C3 witness: the amended statement applied to the concrete stored
document and the concrete freshly-inline call shape. -/
theorem updateMistake_merge_write_witness :
    findDoc (firebaseService.updateMistake [oldDoc] inlineUpdate) inlineUpdate.id
      = some (mergeItem oldDoc inlineUpdate)
    ∧ (mergeItem oldDoc inlineUpdate).userId = oldDoc.userId :=
  ⟨(updateMistake_merge_write [oldDoc] inlineUpdate oldDoc (by decide)).1,
   (updateMistake_merge_write [oldDoc] inlineUpdate oldDoc (by decide)).2.2.1⟩

/-- The first occurrence split underlying `s.split(sep)`: `none` when
`sep` does not occur (JS `includes` false), otherwise the text before
the first occurrence and the text after it. -/
def splitFirst (sep : Str) : Str → Option (Str × Str)
  | [] => none
  | c :: rest =>
    if sep.isPrefixOf (c :: rest) then some ([], (c :: rest).drop sep.length)
    else (splitFirst sep rest).map (fun pq => (c :: pq.1, pq.2))

/-- The two entries of `s.split(sep)` the source reads: `parts[0]`
(before the first occurrence) and `parts[1]` (between the first and the
second occurrence, or the rest when the separator occurs once);
`parts[1]` is `none` when the separator does not occur at all. -/
def jsSplitTwo (sep : Str) (s : Str) : Str × Option Str :=
  match splitFirst sep s with
  | none => (s, none)
  | some (pre, post) =>
    match splitFirst sep post with
    | none => (pre, some post)
    | some (pre2, _) => (pre, some pre2)

/-- The lazy capture of `/data:(.*?);/` from a given position: the
characters up to the first `';'`; the attempt fails at end-of-string or
at a newline, which `.` does not match. -/
def takeToSemi : Str → Option Str
  | [] => none
  | c :: rest =>
    if c = ';' then some []
    else if c = '\n' then none
    else (takeToSemi rest).map (fun m => c :: m)

/-- First match of `/data:(.*?);/` over a string: scan left to right
for `data:`; at each occurrence the lazy group captures up to the first
following `';'`, and a failed attempt resumes scanning at the next
position.  The result is the capture group `mimeMatch[1]`. -/
def matchDataMime : Str → Option Str
  | [] => none
  | c :: rest =>
    if (chars "data:").isPrefixOf (c :: rest) then
      match takeToSemi ((c :: rest).drop 5) with
      | some cap => some cap
      | none => matchDataMime rest
    else matchDataMime rest

/-- An inline image part as sent to the provider: media type plus raw
Base64 payload. -/
structure ImagePart where
  mimeType : Str
  base64Data : Str
deriving DecidableEq

/-- The error message `urlToData` throws on any fetch/read failure
(`src/index.tsx` line 123), carrying the CORS-configuration hint. -/
def corsHintMessage : Str :=
  chars "Failed to download image from cloud. If you are using Firebase Storage, please ensure CORS is configured on your bucket."

/-- `urlToData(url)` (`src/index.tsx` lines 97–125): fetch the URL and
re-encode the response blob through a data-URL reader.  The
environmental outcome — `some part` when the fetch and read succeed
(the reader recovering the media type and payload), `none` on any
failure — is a parameter; every failure is rethrown as the CORS-hint
error. -/
def urlToData (fetchOutcome : Option ImagePart) : Except Str ImagePart :=
  match fetchOutcome with
  | some part => Except.ok part
  | none => Except.error corsHintMessage

/-- The input-normalization prefix of `analyzeImage` (`src/index.tsx`
lines 127–158): (a) an input starting with `http` is fetched and
re-encoded via `urlToData`, whose failure is rethrown
(`new Error(e.message || ...)`; the CORS-hint message is non-empty, so
it is what propagates); (b) an input containing `'base64,'` is split on
it, `parts[1]` becoming the payload, the media type recovered from
`parts[0]` by `/data:(.*?);/` when that match yields a non-empty
capture and `image/jpeg` otherwise; (c) any other input is used as a
raw payload with the assumed default `image/jpeg` media type. -/
def analyzeImageInput (fetchOutcome : Option ImagePart) (input : Str) : Except Str ImagePart :=
  if (chars "http").isPrefixOf input then
    urlToData fetchOutcome
  else
    match jsSplitTwo (chars "base64,") input with
    | (parts0, some parts1) =>
      Except.ok
        ⟨match matchDataMime parts0 with
         | some m => if m.isEmpty then chars "image/jpeg" else m
         | none => chars "image/jpeg",
         parts1⟩
    | (_, none) => Except.ok ⟨chars "image/jpeg", input⟩

/-- `'base64,'` cannot start at any position of the region
`x ++ ';' :: rest` that lies at or before the `';'`: a comma-free `x`
rules out a full match inside `x`, and `';'` is not a character of the
separator. -/
theorem b64sep_not_prefix (x rest : Str) (hx : ',' ∉ x) :
    (chars "base64,").isPrefixOf (x ++ ';' :: rest) = false := by
  by_contra hcon
  have hpre : chars "base64," <+: x ++ ';' :: rest :=
    List.isPrefixOf_iff_prefix.mp (by simpa using hcon)
  by_cases hlen : (chars "base64,").length ≤ x.length
  · have hsx : chars "base64," <+: x :=
      List.prefix_of_prefix_length_le hpre (List.prefix_append x (';' :: rest)) hlen
    exact hx (hsx.subset (by decide))
  · have hx1 : x ++ [';'] <+: x ++ ';' :: rest := by
      rw [show x ++ ';' :: rest = (x ++ [';']) ++ rest from by simp]
      exact List.prefix_append _ _
    have hx2 : x ++ [';'] <+: chars "base64," := by
      refine List.prefix_of_prefix_length_le hx1 hpre ?_
      have h7 : (chars "base64,").length = 7 := rfl
      simp only [List.length_append, List.length_singleton, h7]
      omega
    have hmem : (';' : Char) ∈ chars "base64," :=
      hx2.subset (List.mem_append_right _ (by simp))
    exact absurd hmem (by decide)

/-- One-step unfolding of the split scan at a non-matching position. -/
theorem splitFirst_cons_neg (sep : Str) (c : Char) (rest : Str)
    (h : sep.isPrefixOf (c :: rest) = false) :
    splitFirst sep (c :: rest) = (splitFirst sep rest).map (fun pq => (c :: pq.1, pq.2)) := by
  simp only [splitFirst, h, Bool.false_eq_true, if_false]

/-- One-step unfolding of the split scan at a matching position. -/
theorem splitFirst_cons_pos (sep : Str) (c : Char) (rest : Str)
    (h : sep.isPrefixOf (c :: rest) = true) :
    splitFirst sep (c :: rest) = some ([], (c :: rest).drop sep.length) := by
  simp only [splitFirst, h, if_true]

/-- The split at an occurrence sitting at the very front. -/
theorem splitFirst_b64_self (payload : Str) :
    splitFirst (chars "base64,") (chars "base64," ++ payload) = some ([], payload) := by
  have h2 : (chars "base64,").isPrefixOf ('b' :: (chars "ase64," ++ payload)) = true :=
    List.isPrefixOf_iff_prefix.mpr ⟨payload, rfl⟩
  rw [show chars "base64," ++ payload = 'b' :: (chars "ase64," ++ payload) from rfl]
  rw [splitFirst_cons_pos _ _ _ h2]
  rw [show ('b' :: (chars "ase64," ++ payload)).drop (chars "base64,").length = payload from
    List.drop_left (chars "base64,") payload]

/-- The split on `'base64,'` of a well-formed data URL: everything
before the marker becomes `parts[0]` (ending in the `';'`), everything
after it the payload. -/
theorem splitFirst_b64 :
    ∀ x : Str, ',' ∉ x → ∀ payload : Str,
      splitFirst (chars "base64,") (x ++ ';' :: (chars "base64," ++ payload))
        = some (x ++ [';'], payload) := by
  intro x
  induction x with
  | nil =>
    intro _ payload
    rw [List.nil_append]
    have h1 : (chars "base64,").isPrefixOf (';' :: (chars "base64," ++ payload)) = false :=
      b64sep_not_prefix [] (chars "base64," ++ payload) (by simp)
    rw [splitFirst_cons_neg _ _ _ h1, splitFirst_b64_self]
    rfl
  | cons c x' ih =>
    intro hx payload
    have hx' : ',' ∉ x' := fun hm => hx (List.mem_cons_of_mem c hm)
    have hcf : (chars "base64,").isPrefixOf
        (c :: (x' ++ ';' :: (chars "base64," ++ payload))) = false :=
      b64sep_not_prefix (c :: x') _ hx
    rw [show (c :: x') ++ ';' :: (chars "base64," ++ payload)
        = c :: (x' ++ ';' :: (chars "base64," ++ payload)) from rfl]
    rw [splitFirst_cons_neg _ _ _ hcf, ih hx' payload]
    rfl

/-- A comma-free string contains no `'base64,'` occurrence, so the
split finds nothing. -/
theorem splitFirst_b64_none : ∀ s : Str, ',' ∉ s → splitFirst (chars "base64,") s = none := by
  intro s
  induction s with
  | nil => intro _; rfl
  | cons c rest ih =>
    intro h
    have hpf : (chars "base64,").isPrefixOf (c :: rest) = false := by
      by_contra hcon
      have hpre : chars "base64," <+: c :: rest :=
        List.isPrefixOf_iff_prefix.mp (by simpa using hcon)
      exact h (hpre.subset (by decide))
    rw [splitFirst_cons_neg _ _ _ hpf, ih (fun hm => h (List.mem_cons_of_mem c hm))]
    rfl

/-- The lazy capture stops at the closing `';'` of a semicolon-free,
newline-free media type. -/
theorem takeToSemi_mime :
    ∀ m : Str, ';' ∉ m → '\n' ∉ m → takeToSemi (m ++ [';']) = some m := by
  intro m
  induction m with
  | nil => intro _ _; rfl
  | cons c m' ih =>
    intro h1 h2
    have hc1 : ¬ c = ';' := fun hc => h1 (hc ▸ List.mem_cons_self c m')
    have hc2 : ¬ c = '\n' := fun hc => h2 (hc ▸ List.mem_cons_self c m')
    rw [show (c :: m') ++ [';'] = c :: (m' ++ [';']) from rfl]
    simp only [takeToSemi, hc1, hc2, if_false]
    rw [ih (fun hm => h1 (List.mem_cons_of_mem c hm)) (fun hm => h2 (List.mem_cons_of_mem c hm))]
    rfl

/-- The mime regex over `parts[0]` of a well-formed data URL recovers
the media type: the match anchors at the leading `data:` and captures
up to the closing `';'`. -/
theorem matchDataMime_data (m : Str) (h1 : ';' ∉ m) (h2 : '\n' ∉ m) :
    matchDataMime (chars "data:" ++ (m ++ [';'])) = some m := by
  have hpre : (chars "data:").isPrefixOf ('d' :: (chars "ata:" ++ (m ++ [';']))) = true :=
    List.isPrefixOf_iff_prefix.mpr ⟨m ++ [';'], rfl⟩
  have hdrop : ('d' :: (chars "ata:" ++ (m ++ [';']))).drop 5 = m ++ [';'] := rfl
  rw [show chars "data:" ++ (m ++ [';']) = 'd' :: (chars "ata:" ++ (m ++ [';'])) from rfl]
  simp only [matchDataMime, hpre, if_true, hdrop, takeToSemi_mime m h1 h2]

/-- C7: `analyzeImage` input normalization: (a) an `http(s)` URL is
fetched and re-encoded into an inline part, a fetch failure raising the
CORS-configuration-hint error; (b) a data-URL-style input
`data:<mime>;base64,<payload>` has its encoding prefix parsed to
recover the media type and its payload extracted; (c) any other input
is used as a raw payload with the assumed default `image/jpeg` media
type.  For (b), the side conditions say the media type is a plain token
(no `';'`, newline or `','`) and the payload is Base64-alphabet text
(no `','`), so the `'base64,'` marker occurs exactly once. -/
theorem analyzeImage_input_normalization :
    (∀ (input : Str) (part : ImagePart),
      (chars "http").isPrefixOf input = true →
      analyzeImageInput (some part) input = Except.ok part
        ∧ analyzeImageInput none input = Except.error corsHintMessage)
    ∧ (∀ (fr : Option ImagePart) (m payload : Str),
      m ≠ [] → ';' ∉ m → '\n' ∉ m → ',' ∉ m → ',' ∉ payload →
      analyzeImageInput fr (chars "data:" ++ (m ++ (';' :: (chars "base64," ++ payload))))
        = Except.ok ⟨m, payload⟩)
    ∧ (∀ (fr : Option ImagePart) (input : Str),
      (chars "http").isPrefixOf input = false →
      splitFirst (chars "base64,") input = none →
      analyzeImageInput fr input = Except.ok ⟨chars "image/jpeg", input⟩) := by
  refine ⟨?_, ?_, ?_⟩
  · intro input part h
    constructor
    · simp only [analyzeImageInput, h, if_true]
      rfl
    · simp only [analyzeImageInput, h, if_true]
      rfl
  · intro fr m payload hm h1 h2 h3 h4
    have hhttp : (chars "http").isPrefixOf
        (chars "data:" ++ (m ++ (';' :: (chars "base64," ++ payload)))) = false := rfl
    have hx : ',' ∉ chars "data:" ++ m := by
      intro hmem
      rcases List.mem_append.mp hmem with hc | hc
      · exact absurd hc (by decide)
      · exact h3 hc
    have hsplit := splitFirst_b64 (chars "data:" ++ m) hx payload
    rw [List.append_assoc] at hsplit
    have hmime : matchDataMime ((chars "data:" ++ m) ++ [';']) = some m := by
      rw [List.append_assoc]
      exact matchDataMime_data m h1 h2
    have hempty : m.isEmpty = false := by
      cases m with
      | nil => exact absurd rfl hm
      | cons _ _ => rfl
    simp only [analyzeImageInput, hhttp, Bool.false_eq_true, if_false, jsSplitTwo, hsplit,
      splitFirst_b64_none payload h4, hmime, hempty]
  · intro fr input hhttp hnone
    simp only [analyzeImageInput, hhttp, Bool.false_eq_true, if_false, jsSplitTwo, hnone]

/-- C7 witness: a concrete URL input with a successful and a failed
fetch, a concrete data URL, and a concrete raw payload. -/
theorem analyzeImage_input_normalization_witness :
    analyzeImageInput (some ⟨chars "image/png", chars "AAAA"⟩) (chars "https://h/i.png")
      = Except.ok ⟨chars "image/png", chars "AAAA"⟩
    ∧ analyzeImageInput none (chars "https://h/i.png") = Except.error corsHintMessage
    ∧ analyzeImageInput none
        (chars "data:" ++ (chars "image/png" ++ (';' :: (chars "base64," ++ chars "iVBOR"))))
        = Except.ok ⟨chars "image/png", chars "iVBOR"⟩
    ∧ analyzeImageInput none (chars "iVBOR") = Except.ok ⟨chars "image/jpeg", chars "iVBOR"⟩ :=
  ⟨((analyzeImage_input_normalization).1 (chars "https://h/i.png")
      ⟨chars "image/png", chars "AAAA"⟩ (by decide)).1,
   ((analyzeImage_input_normalization).1 (chars "https://h/i.png")
      ⟨chars "image/png", chars "AAAA"⟩ (by decide)).2,
   (analyzeImage_input_normalization).2.1 none (chars "image/png") (chars "iVBOR")
      (by decide) (by decide) (by decide) (by decide) (by decide),
   (analyzeImage_input_normalization).2.2 none (chars "iVBOR") (by decide) (by decide)⟩

/-- One global literal replacement by the empty string,
`s.replace(/lit/g, '')` for a non-empty literal pattern: scan left to
right, drop each non-overlapping occurrence, resuming after it.
`fuel` only bounds the scan (every step consumes at least one input
character, so any `fuel ≥ s.length` computes the replacement; the
wrapper below passes `s.length`). -/
def removeAllGo (pat : Str) : Nat → Str → Str
  | _, [] => []
  | 0, s => s
  | fuel + 1, c :: cs =>
    if pat.isPrefixOf (c :: cs) then removeAllGo pat fuel ((c :: cs).drop pat.length)
    else c :: removeAllGo pat fuel cs

/-- `s.replace(/pat/g, '')` for a literal pattern. -/
def removeAll (pat s : Str) : Str := removeAllGo pat s.length s

/-- The characters stripped by JS `String.prototype.trim` (the ASCII
members of WhiteSpace and LineTerminator; the Unicode space members do
not occur in any input considered here). -/
def isJsWhitespace (c : Char) : Bool :=
  c == ' ' || c == '\t' || c == '\n' || c == '\r' || c == '\x0b' || c == '\x0c'

/-- Leading-whitespace strip of `trim`. -/
def trimLeft (s : Str) : Str := s.dropWhile isJsWhitespace

/-- Trailing-whitespace strip of `trim`. -/
def trimRight (s : Str) : Str := (s.reverse.dropWhile isJsWhitespace).reverse

/-- JS `s.trim()`. -/
def jsTrim (s : Str) : Str := trimRight (trimLeft s)

/-- The cleaning stage of `safeJsonParse` (`src/index.tsx` line 92):
`text.replace(/```json/g, '').replace(/```/g, '').trim()`. -/
def cleanJsonText (text : Str) : Str :=
  jsTrim (removeAll (chars "```") (removeAll (chars "```json") text))

/-- `safeJsonParse` (`src/index.tsx` lines 90–94): clean the text, then
hand it to `JSON.parse`.  The host parser is abstracted as the `parse`
argument (`jsonParse` below is a concrete model of it); parse failure
is `none` (the thrown `SyntaxError`). -/
def safeJsonParse {J : Type} (parse : Str → Option J) (text : Str) : Option J :=
  parse (cleanJsonText text)

/-- The replacement scan is independent of the fuel once the fuel
covers the input length. -/
theorem removeAllGo_fuel (pat : Str) (hp : pat ≠ []) :
    ∀ (f1 : Nat) (s : Str) (f2 : Nat), s.length ≤ f1 → s.length ≤ f2 →
      removeAllGo pat f1 s = removeAllGo pat f2 s := by
  intro f1
  induction f1 with
  | zero =>
    intro s f2 h1 _
    have hs : s = [] := List.eq_nil_of_length_eq_zero (Nat.le_zero.mp h1)
    subst hs
    cases f2 <;> rfl
  | succ f1 ih =>
    intro s f2 h1 h2
    cases s with
    | nil => cases f2 <;> rfl
    | cons c cs =>
      cases f2 with
      | zero => simp at h2
      | succ f2' =>
        have hp1 : 1 ≤ pat.length := by
          cases pat with
          | nil => exact absurd rfl hp
          | cons _ _ => simp
        by_cases hpre : pat.isPrefixOf (c :: cs) = true
        · simp only [removeAllGo, hpre, if_true]
          apply ih
          · simp only [List.length_drop, List.length_cons]
            simp only [List.length_cons] at h1
            omega
          · simp only [List.length_drop, List.length_cons]
            simp only [List.length_cons] at h2
            omega
        · simp only [removeAllGo, hpre, Bool.false_eq_true, if_false]
          have := ih cs f2' (by simpa using Nat.le_of_succ_le_succ (by simpa using h1))
            (by simpa using Nat.le_of_succ_le_succ (by simpa using h2))
          rw [this]

/-- One scan step at a non-matching position. -/
theorem removeAll_cons_neg (pat : Str) (c : Char) (s : Str)
    (h : pat.isPrefixOf (c :: s) = false) :
    removeAll pat (c :: s) = c :: removeAll pat s := by
  show removeAllGo pat (c :: s).length (c :: s) = c :: removeAllGo pat s.length s
  rw [show (c :: s).length = s.length + 1 from rfl]
  simp only [removeAllGo, h, Bool.false_eq_true, if_false]

/-- A whole occurrence at the front is dropped and the scan resumes
after it. -/
theorem removeAll_head_occurrence (pat : Str) (hp : pat ≠ []) (s : Str) :
    removeAll pat (pat ++ s) = removeAll pat s := by
  cases hpat : pat with
  | nil => exact absurd hpat hp
  | cons p ps =>
    have hpre : (p :: ps).isPrefixOf (p :: (ps ++ s)) = true :=
      List.isPrefixOf_iff_prefix.mpr ⟨s, rfl⟩
    show removeAllGo (p :: ps) ((p :: ps) ++ s).length ((p :: ps) ++ s)
      = removeAllGo (p :: ps) s.length s
    rw [show (p :: ps) ++ s = p :: (ps ++ s) from rfl]
    rw [show (p :: (ps ++ s)).length = (ps ++ s).length + 1 from rfl]
    simp only [removeAllGo, hpre, if_true]
    rw [show (p :: (ps ++ s)).drop (p :: ps).length = s from List.drop_left (p :: ps) s]
    apply removeAllGo_fuel (p :: ps) (by simp)
    · simp only [List.length_append]
      omega
    · exact le_rfl

/-- The scan distributes over a newline separator when the pattern
contains no newline: no occurrence can span the separator, so the two
sides are replaced independently. -/
theorem removeAll_append_nl (pat : Str) (hp : pat ≠ []) (hnl : '\n' ∉ pat) :
    ∀ (n : Nat) (a b : Str), a.length ≤ n →
      removeAll pat (a ++ '\n' :: b) = removeAll pat a ++ '\n' :: removeAll pat b := by
  intro n
  induction n with
  | zero =>
    intro a b ha
    have hs : a = [] := List.eq_nil_of_length_eq_zero (Nat.le_zero.mp ha)
    subst hs
    rw [List.nil_append]
    have hpf : pat.isPrefixOf ('\n' :: b) = false := by
      by_contra hcon
      have hpre : pat <+: '\n' :: b := List.isPrefixOf_iff_prefix.mp (by simpa using hcon)
      cases pat with
      | nil => exact hp rfl
      | cons p ps =>
        obtain ⟨t, ht⟩ := hpre
        have hph : p = '\n' := by
          have := congrArg List.head? ht
          simpa using this
        exact hnl (hph ▸ List.mem_cons_self p ps)
    rw [removeAll_cons_neg pat '\n' b hpf]
    rfl
  | succ n ih =>
    intro a b ha
    cases a with
    | nil => exact ih [] b (by simp)
    | cons c a' =>
      have hp1 : 1 ≤ pat.length := by
        cases pat with
        | nil => exact absurd rfl hp
        | cons _ _ => simp
      by_cases hpre : pat.isPrefixOf (c :: a') = true
      · obtain ⟨t, ht⟩ := List.isPrefixOf_iff_prefix.mp hpre
        rw [← ht, List.append_assoc]
        rw [removeAll_head_occurrence pat hp (t ++ '\n' :: b), removeAll_head_occurrence pat hp t]
        apply ih t b
        have hlen := congrArg List.length ht
        simp only [List.length_append, List.length_cons] at hlen
        simp only [List.length_cons] at ha
        omega
      · have hpf : pat.isPrefixOf (c :: a') = false := Bool.eq_false_iff.mpr hpre
        have hpw : pat.isPrefixOf (c :: (a' ++ '\n' :: b)) = false := by
          by_contra hcon
          have hpre2 : pat <+: (c :: a') ++ '\n' :: b :=
            List.isPrefixOf_iff_prefix.mp (by simpa using hcon)
          by_cases hlen : pat.length ≤ (c :: a').length
          · have : pat <+: c :: a' :=
              List.prefix_of_prefix_length_le hpre2 (List.prefix_append _ _) hlen
            exact hpre (List.isPrefixOf_iff_prefix.mpr this)
          · have hq1 : (c :: a') ++ ['\n'] <+: (c :: a') ++ '\n' :: b := by
              rw [show (c :: a') ++ '\n' :: b = ((c :: a') ++ ['\n']) ++ b from by simp]
              exact List.prefix_append _ _
            have hq2 : (c :: a') ++ ['\n'] <+: pat := by
              refine List.prefix_of_prefix_length_le hq1 hpre2 ?_
              simp only [List.length_append, List.length_singleton, List.length_cons,
                List.length_nil]
              simp only [List.length_cons] at hlen
              omega
            exact hnl (hq2.subset (List.mem_append_right _ (by simp)))
        rw [show (c :: a') ++ '\n' :: b = c :: (a' ++ '\n' :: b) from rfl]
        rw [removeAll_cons_neg pat c _ hpw]
        rw [removeAll_cons_neg pat c a' hpf]
        rw [ih a' b (by simpa using Nat.le_of_succ_le_succ (by simpa using ha))]
        rfl

/-- `trim` absorbs a leading newline. -/
theorem jsTrim_cons_nl (s : Str) : jsTrim ('\n' :: s) = jsTrim s := by
  unfold jsTrim trimLeft
  rw [List.dropWhile_cons]
  rw [if_pos (by decide)]

/-- `trim` absorbs a trailing newline. -/
theorem trimRight_append_nl (s : Str) : trimRight (s ++ ['\n']) = trimRight s := by
  unfold trimRight
  rw [List.reverse_append]
  simp only [List.reverse_cons, List.reverse_nil, List.nil_append, List.singleton_append]
  rw [List.dropWhile_cons]
  rw [if_pos (by decide)]

/-- `trim` of a text with one trailing newline equals `trim` of the
text. -/
theorem jsTrim_append_nl (s : Str) : jsTrim (s ++ ['\n']) = jsTrim s := by
  unfold jsTrim trimLeft
  rw [List.dropWhile_append]
  by_cases h : (List.dropWhile isJsWhitespace s).isEmpty = true
  · rw [if_pos h]
    rw [List.isEmpty_iff.mp h]
    rfl
  · rw [if_neg h]
    exact trimRight_append_nl _

/-- The cleaning stage maps the fence-wrapped form of a text to the
same result as the bare text: the leading `'''json` marker (shown here
with quotes for backticks) is removed by the first replacement, the
trailing fence by the second, no occurrence spans the newline
separators, and the two leftover newlines are trimmed. -/
theorem cleanJsonText_fence (t : Str) :
    cleanJsonText (chars "```json" ++ ('\n' :: (t ++ '\n' :: chars "```")))
      = cleanJsonText t := by
  unfold cleanJsonText
  have hp1 : (chars "```json") ≠ [] := by decide
  have hp2 : (chars "```") ≠ [] := by decide
  have hn1 : '\n' ∉ chars "```json" := by decide
  have hn2 : '\n' ∉ chars "```" := by decide
  rw [removeAll_head_occurrence _ hp1]
  rw [removeAll_cons_neg _ '\n' _ (by rfl)]
  rw [removeAll_append_nl _ hp1 hn1 t.length t _ le_rfl]
  rw [show removeAll (chars "```json") (chars "```") = chars "```" from by decide]
  rw [removeAll_cons_neg _ '\n' _ (by rfl)]
  rw [removeAll_append_nl _ hp2 hn2 (removeAll (chars "```json") t).length _ _ le_rfl]
  rw [show removeAll (chars "```") (chars "```") = [] from by decide]
  rw [jsTrim_cons_nl]
  rw [show removeAll (chars "```") (removeAll (chars "```json") t) ++ '\n' :: []
      = removeAll (chars "```") (removeAll (chars "```json") t) ++ ['\n'] from rfl]
  rw [jsTrim_append_nl]

/-- C8: `safeJsonParse` applied to the code-fence-wrapped form of a
text (the text surrounded by the `'''json` and `'''` markers on their
own lines) returns the same parse result as applied to the bare text,
for every model of `JSON.parse` — in particular, on well-formed JSON
both return the same structured object. -/
theorem safeJsonParse_fence_equiv {J : Type} (parse : Str → Option J) (t : Str) :
    safeJsonParse parse (chars "```json" ++ ('\n' :: (t ++ '\n' :: chars "```")))
      = safeJsonParse parse t := by
  unfold safeJsonParse
  rw [cleanJsonText_fence]

/-- A JSON value as produced by the host `JSON.parse` (object fields in
textual order). -/
inductive JsonValue
  | jnull
  | jbool (b : Bool)
  | jnum (n : Int)
  | jstr (s : Str)
  | jarr (elems : List JsonValue)
  | jobj (fields : List (Str × JsonValue))

/-- JSON insignificant whitespace. -/
def isJsonWs (c : Char) : Bool := c == ' ' || c == '\t' || c == '\n' || c == '\r'

/-- Skip insignificant whitespace. -/
def skipWs (s : Str) : Str := s.dropWhile isJsonWs

/-- JSON string escapes (`\uXXXX` is not modelled; no input considered
here contains escapes at all). -/
def unescape (c : Char) : Option Char :=
  if c = '"' then some '"'
  else if c = '\\' then some '\\'
  else if c = '/' then some '/'
  else if c = 'n' then some '\n'
  else if c = 't' then some '\t'
  else if c = 'r' then some '\r'
  else if c = 'b' then some (Char.ofNat 8)
  else if c = 'f' then some (Char.ofNat 12)
  else none

/-- Parse the body of a JSON string after its opening quote, up to and
over the closing quote; returns the decoded content and the rest. -/
def parseStringBody : Str → Option (Str × Str)
  | [] => none
  | c :: rest =>
    if c = '"' then some ([], rest)
    else if c = '\\' then
      match rest with
      | [] => none
      | e :: rest2 =>
        match unescape e with
        | none => none
        | some ec =>
          match parseStringBody rest2 with
          | none => none
          | some (s, r) => some (ec :: s, r)
    else
      match parseStringBody rest with
      | none => none
      | some (s, r) => some (c :: s, r)

/-- Accumulate a run of decimal digits. -/
def parseDigitsGo : Nat → Str → Nat × Str
  | acc, [] => (acc, [])
  | acc, c :: rest =>
    if c.isDigit then parseDigitsGo (acc * 10 + (c.toNat - 48)) rest else (acc, c :: rest)

/-- Parse a JSON number (integer part only; fractions and exponents are
not modelled, and do not occur in any input considered here). -/
def parseNumber : Str → Option (JsonValue × Str)
  | [] => none
  | '-' :: rest =>
    match rest with
    | c :: _ =>
      if c.isDigit then
        let nr := parseDigitsGo 0 rest
        some (JsonValue.jnum (-(nr.1 : Int)), nr.2)
      else none
    | [] => none
  | c :: rest =>
    if c.isDigit then
      let nr := parseDigitsGo 0 (c :: rest)
      some (JsonValue.jnum (nr.1 : Int), nr.2)
    else none

/-- Parse the members of a JSON object after its opening brace (at
least one member; the empty object is handled by the caller).  `pv`
parses one value (the caller passes the value parser at the remaining
nesting budget); `fw` bounds the number of members. -/
def parseMembers (pv : Str → Option (JsonValue × Str)) :
    Nat → Str → Option (List (Str × JsonValue) × Str)
  | 0, _ => none
  | fw + 1, s =>
    match skipWs s with
    | '"' :: rest =>
      match parseStringBody rest with
      | none => none
      | some (key, r1) =>
        match skipWs r1 with
        | ':' :: r2 =>
          match pv r2 with
          | none => none
          | some (v, r3) =>
            match skipWs r3 with
            | c4 :: r4 =>
              if c4 = ',' then
                match parseMembers pv fw r4 with
                | none => none
                | some (ms, r) => some ((key, v) :: ms, r)
              else if c4 = Char.ofNat 125 then some ([(key, v)], r4)
              else none
            | [] => none
        | _ => none
    | _ => none

/-- Parse the elements of a JSON array after its opening bracket (at
least one element; the empty array is handled by the caller). -/
def parseElems (pv : Str → Option (JsonValue × Str)) :
    Nat → Str → Option (List JsonValue × Str)
  | 0, _ => none
  | fw + 1, s =>
    match pv s with
    | none => none
    | some (v, r1) =>
      match skipWs r1 with
      | ',' :: r2 =>
        match parseElems pv fw r2 with
        | none => none
        | some (es, r) => some (v :: es, r)
      | ']' :: r2 => some ([v], r2)
      | _ => none

/-- Parse one JSON value; `fuel` bounds the nesting depth and member
counts (any `fuel` beyond the input length suffices). `Char.ofNat 123`
and `Char.ofNat 125` are the opening and closing curly braces. -/
def parseVal : Nat → Str → Option (JsonValue × Str)
  | 0, _ => none
  | fuel + 1, s =>
    match skipWs s with
    | [] => none
    | c :: rest =>
      if c = '"' then
        match parseStringBody rest with
        | none => none
        | some (sv, r) => some (JsonValue.jstr sv, r)
      else if c = Char.ofNat 123 then
        match skipWs rest with
        | c2 :: r2 =>
          if c2 = Char.ofNat 125 then some (JsonValue.jobj [], r2)
          else
            match parseMembers (fun s2 => parseVal fuel s2) fuel rest with
            | none => none
            | some (ms, r) => some (JsonValue.jobj ms, r)
        | [] => none
      else if c = '[' then
        match skipWs rest with
        | c2 :: r2 =>
          if c2 = ']' then some (JsonValue.jarr [], r2)
          else
            match parseElems (fun s2 => parseVal fuel s2) fuel rest with
            | none => none
            | some (es, r) => some (JsonValue.jarr es, r)
        | [] => none
      else
        match c :: rest with
        | 't' :: 'r' :: 'u' :: 'e' :: r => some (JsonValue.jbool true, r)
        | 'f' :: 'a' :: 'l' :: 's' :: 'e' :: r => some (JsonValue.jbool false, r)
        | 'n' :: 'u' :: 'l' :: 'l' :: r => some (JsonValue.jnull, r)
        | s2 => parseNumber s2

/-- The model of the host `JSON.parse`: parse one value and require
only trailing whitespace after it; everything else is a parse failure
(the thrown `SyntaxError`). -/
def jsonParse (s : Str) : Option JsonValue :=
  match parseVal (s.length + 1) s with
  | none => none
  | some (v, rest) => if (skipWs rest).isEmpty then some v else none

/-- C10 (implicit behaviour of `safeJsonParse`): the cleaning stage
removes every occurrence of the fence markers anywhere in the input —
not only a surrounding fence — before trimming and parsing.  On the raw
text `{"a":"x'''y"}` (curly braces and, shown here as quotes, three
backticks inside the string value), which is valid JSON, the cleaning
rewrites the value, so `safeJsonParse` returns a different object than
`JSON.parse` of the raw text. -/
theorem safeJsonParse_strips_inner_fences :
    jsonParse (chars "\x7b\"a\":\"x```y\"\x7d")
      = some (JsonValue.jobj [(chars "a", JsonValue.jstr (chars "x```y"))])
    ∧ safeJsonParse jsonParse (chars "\x7b\"a\":\"x```y\"\x7d")
      = some (JsonValue.jobj [(chars "a", JsonValue.jstr (chars "xy"))])
    ∧ JsonValue.jobj [(chars "a", JsonValue.jstr (chars "x```y"))]
      ≠ JsonValue.jobj [(chars "a", JsonValue.jstr (chars "xy"))]
    ∧ cleanJsonText (chars "\x7b\"a\":\"x```y\"\x7d") = chars "\x7b\"a\":\"xy\"\x7d" := by
  refine ⟨by rfl, by rfl, ?_, by rfl⟩
  simp [chars]
